import Mathlib

/-!
Verification of the analytics API implemented in `src/lib/main.py` (FastAPI).

The embedding is shallow:
* the pydantic data model (`Project`, `Team`, `LogEntry`, `Person`) becomes Lean
  structures; Python's unbounded `int` becomes `Int`;
* the process-wide cache `cache` (a dict that either lacks or holds the key
  `"people"`) becomes `Option (List Person)`: `none` models a cache with no
  `"people"` key;
* each route handler becomes a pure function from the cache state (and the
  parsed query/body parameters) to `Except ApiError result`; FastAPI turns an
  `HTTPException(404)` into a 404 response and a request-validation failure
  (pydantic body validation, or `Query(ge=0)` on `min`) into a 422 response,
  both modelled by `ApiError`;
* `processing_time_ms` is wall-clock time and is not modelled;
* Python's insertion-ordered `dict` / `collections.defaultdict` becomes an
  insertion-ordered association list (`ddUpdate` / fold), and
  `Counter.most_common(5)` becomes a stable descending sort by count followed
  by `take 5` (CPython's `heapq.nlargest` is documented to agree with the
  stable `sorted(..., reverse=True)[:n]`).
-/

namespace Desafio

/-- Calendar date, the value of Python's `datetime.date` as produced by
pydantic when it parses the `data` field of a log entry. -/
structure Date where
  year : Nat
  month : Nat
  day : Nat
deriving DecidableEq, Repr

/-- `class Project(BaseModel)`: `nome : str`, `concluido : bool`. -/
structure Project where
  nome : String
  concluido : Bool
deriving DecidableEq, Repr

/-- `class Team(BaseModel)`: `nome : str`, `lider : bool`,
`projetos : List[Project]`. -/
structure Team where
  nome : String
  lider : Bool
  projetos : List Project
deriving DecidableEq, Repr

/-- `class LogEntry(BaseModel)`: `data : date`, `acao : str` (already parsed). -/
structure LogEntry where
  data : Date
  acao : String
deriving DecidableEq, Repr

/-- `class Person(BaseModel)` after validation.  The `id` field keeps the
normalized textual form of the UUID. -/
structure Person where
  id : String
  nome : String
  idade : Int
  score : Int
  ativo : Bool
  pais : String
  equipe : Team
  logs : List LogEntry
deriving DecidableEq, Repr

/-! ### Raw (pre-validation) payload and the pydantic validation step

A `POST /users` body is a JSON array of person objects.  The fields whose
validation can fail beyond JSON-shape checks are `id` (must parse as a
version-4 UUID: pydantic's `UUID4`) and every log's `data` (must parse as a
calendar date).  The raw model keeps those two as strings and the rest typed;
a shape-level mismatch is likewise a wholesale 422 rejection in FastAPI, so
it is subsumed by the validation-failure branch. -/

/-- A log entry as it appears in the request body: the date still a string. -/
structure RawLogEntry where
  data : String
  acao : String
deriving DecidableEq, Repr

/-- A person record as it appears in the request body. -/
structure RawPerson where
  id : String
  nome : String
  idade : Int
  score : Int
  ativo : Bool
  pais : String
  equipe : Team
  logs : List RawLogEntry
deriving DecidableEq, Repr

/-- Day count of each month, with the Gregorian leap rule (as Python's
`datetime.date` enforces). -/
def daysInMonth (y m : Nat) : Nat :=
  if m = 2 then
    (if y % 4 = 0 && (y % 100 ≠ 0 || y % 400 = 0) then 29 else 28)
  else if m = 4 || m = 6 || m = 9 || m = 11 then 30 else 31

/-- Numeric value of a decimal digit character. -/
def digitVal (c : Char) : Nat := c.toNat - 48

/-- Parse an ISO `YYYY-MM-DD` string into a calendar date, rejecting
out-of-range months and days — the format pydantic accepts for a `date`
field. -/
def parseDate (s : String) : Option Date :=
  match s.toList with
  | [y1, y2, y3, y4, '-', m1, m2, '-', d1, d2] =>
    if (y1.isDigit && y2.isDigit && y3.isDigit && y4.isDigit &&
        m1.isDigit && m2.isDigit && d1.isDigit && d2.isDigit) then
      let y := digitVal y1 * 1000 + digitVal y2 * 100 + digitVal y3 * 10 + digitVal y4
      let m := digitVal m1 * 10 + digitVal m2
      let d := digitVal d1 * 10 + digitVal d2
      if 1 ≤ m && m ≤ 12 && 1 ≤ d && d ≤ daysInMonth y m then
        some ⟨y, m, d⟩
      else none
    else none
  | _ => none

/-- Hexadecimal digit test on a lower-cased character. -/
def isHexLower (c : Char) : Bool := c.isDigit || (97 ≤ c.toNat && c.toNat ≤ 102)

/-- Validation of pydantic's `UUID4` type: Python's `uuid.UUID` lower-cases
the input and drops the dashes, then requires 32 hexadecimal digits; the
`UUID4` wrapper additionally requires the RFC-4122 variant and version 4
(digit 12 is `4`, digit 16 is one of `8`, `9`, `a`, `b`). -/
def validUUID4 (s : String) : Bool :=
  let t := ((s.toList.map Char.toLower).filter (fun c => c ≠ '-'))
  t.length = 32 && t.all isHexLower &&
    t.get? 12 = some '4' &&
    (t.get? 16).elim false (fun c => c = '8' || c = '9' || c = 'a' || c = 'b')

/-- Validate one raw log entry: its `data` string must parse as a date. -/
def validateLog (r : RawLogEntry) : Option LogEntry :=
  (parseDate r.data).map (fun d => ⟨d, r.acao⟩)

/-- Sequence a validator over a list: any failure fails the whole list
(pydantic validates the full `List[Person]` body before the handler runs). -/
def validateAll {α β : Type} (f : α → Option β) : List α → Option (List β)
  | [] => some []
  | x :: xs =>
    match f x with
    | none => none
    | some b => (validateAll f xs).map (fun bs => b :: bs)

/-- Validate one raw person record: the `id` must be a valid version-4 UUID
and every log date must parse. -/
def validatePerson (r : RawPerson) : Option Person :=
  if validUUID4 r.id then
    (validateAll validateLog r.logs).map
      (fun logs => ⟨r.id, r.nome, r.idade, r.score, r.ativo, r.pais, r.equipe, logs⟩)
  else none

/-! ### Cache state and API errors -/

/-- The process-wide cache: `none` when `"people" not in cache`. -/
abbrev State : Type := Option (List Person)

/-- The errors the API surfaces: `HTTPException(status_code=404)` for an
empty cache, and FastAPI's request-validation rejection (HTTP 422) for a
malformed body or a `min` query parameter violating `ge=0`. -/
inductive ApiError where
  | notFound
  | validationFailed
deriving DecidableEq, Repr

/-- HTTP status code of each error. -/
def ApiError.statusCode : ApiError → Nat
  | .notFound => 404
  | .validationFailed => 422

/-- Result shape shared by the query endpoints (`processing_time_ms`
omitted): `total` and `data`. -/
structure AggResult (α : Type) where
  total : Nat
  data : List α
deriving DecidableEq, Repr

/-! ### defaultdict / Counter as insertion-ordered association lists -/

/-- One `defaultdict` access-and-update `d[k] = f(d[k])` on an
insertion-ordered association list: update in place when the key is present,
append `(k, f dflt)` otherwise. -/
def ddUpdate {κ ν : Type} [DecidableEq κ] (dflt : ν) (f : ν → ν) :
    List (κ × ν) → κ → List (κ × ν)
  | [], k => [(k, f dflt)]
  | e :: rest, k =>
    if e.1 = k then (e.1, f e.2) :: rest else e :: ddUpdate dflt f rest k

/-- Association-list lookup (first match). -/
def dlookup {κ ν : Type} [DecidableEq κ] (k : κ) : List (κ × ν) → Option ν
  | [] => none
  | e :: rest => if e.1 = k then some e.2 else dlookup k rest

/-- `Counter(xs)`: count occurrences, keys in first-encounter order. -/
def tally (xs : List String) : List (String × Nat) :=
  xs.foldl (fun acc c => ddUpdate 0 (fun n => n + 1) acc c) []

/-! ### POST /users -/

/-- `POST /users`: pydantic validates the whole body first (any invalid
record rejects the request with 422 and the cache is untouched); on success
the handler stores the parsed list wholesale and answers
`f"{len(people)} pessoas armazenadas em cache"`. -/
def postUsers (payload : List RawPerson) (st : State) :
    Except ApiError String × State :=
  match validateAll validatePerson payload with
  | none => (.error .validationFailed, st)
  | some people =>
    (.ok (toString people.length ++ " pessoas armazenadas em cache"), some people)

/-! ### GET /users -/

/-- The superuser filter of `GET /users`:
`person["score"] >= 900 and person["ativo"]`. -/
def superusersOf (people : List Person) : List Person :=
  people.filter (fun p => decide (900 ≤ p.score) && p.ativo)

/-- `GET /users`: 404 when the cache has no snapshot, otherwise the filtered
records with their count. -/
def getUsers (st : State) : Except ApiError (AggResult Person) :=
  match st with
  | none => .error .notFound
  | some people => .ok ⟨(superusersOf people).length, superusersOf people⟩

/-! ### GET /top-countries -/

/-- The country list of `GET /top-countries`:
`[usuario["pais"] for usuario in people if usuario["score"] > 800]`. -/
def superusuariosPais (people : List Person) : List String :=
  (people.filter (fun p => decide (800 < p.score))).map (fun p => p.pais)

/-- `Counter(...).most_common(5)`: stable sort by descending count, first
five entries. -/
def top5Paises (people : List Person) : List (String × Nat) :=
  ((tally (superusuariosPais people)).mergeSort
    (fun a b => decide (b.2 ≤ a.2))).take 5

/-- `GET /top-countries`: 404 when the cache has no snapshot, otherwise the
five most common countries among records with score above 800. -/
def getTopCountries (st : State) : Except ApiError (AggResult (String × Nat)) :=
  match st with
  | none => .error .notFound
  | some people => .ok ⟨(top5Paises people).length, top5Paises people⟩

/-! ### GET /team-insights -/

/-- The per-team accumulator of the `defaultdict(lambda: {...})` used by
`GET /team-insights`. -/
structure TeamInfo where
  total_membros : Nat
  lideres : Nat
  projetos_concluidos : Nat
  ativos : Nat
deriving DecidableEq, Repr

/-- The accumulator's zero value. -/
def TeamInfo.zero : TeamInfo := ⟨0, 0, 0, 0⟩

/-- One loop iteration of the team-insights aggregation for person `p`. -/
def TeamInfo.add (p : Person) (t : TeamInfo) : TeamInfo :=
  { total_membros := t.total_membros + 1
    lideres := t.lideres + (if p.equipe.lider then 1 else 0)
    projetos_concluidos :=
      t.projetos_concluidos + p.equipe.projetos.countP (fun pr => pr.concluido)
    ativos := t.ativos + (if p.ativo then 1 else 0) }

/-- The `team_data` dict after the aggregation loop, keyed by
`usuario["equipe"]["nome"]` in first-encounter order. -/
def teamData (people : List Person) : List (String × TeamInfo) :=
  people.foldl
    (fun acc p => ddUpdate TeamInfo.zero (TeamInfo.add p) acc p.equipe.nome) []

/-- Decimal rounding `round(x, 2)`, modelled on exact rationals:
round `100 x` to the nearest integer and divide back. -/
def round2 (q : ℚ) : ℚ := ((round (q * 100) : ℤ) : ℚ) / 100

/-- One element of the `insights` list returned by `GET /team-insights`. -/
structure Insight where
  team_name : String
  total_membros : Nat
  lideres : Nat
  projetos_concluidos : Nat
  percentagem_ativos : ℚ
deriving DecidableEq, Repr

/-- Build one insight from a team's accumulator:
`(ativos / total_membros) * 100 if total_membros > 0 else 0`, rounded to two
decimals. -/
def mkInsight (e : String × TeamInfo) : Insight :=
  let porcentagem : ℚ :=
    if 0 < e.2.total_membros then
      ((e.2.ativos : ℚ) / (e.2.total_membros : ℚ)) * 100
    else 0
  ⟨e.1, e.2.total_membros, e.2.lideres, e.2.projetos_concluidos,
    round2 porcentagem⟩

/-- The `insights` list of `GET /team-insights`. -/
def insightsOf (people : List Person) : List Insight :=
  (teamData people).map mkInsight

/-- `GET /team-insights`: 404 when the cache has no snapshot, otherwise the
per-team insights. -/
def getTeamInsights (st : State) : Except ApiError (AggResult Insight) :=
  match st with
  | none => .error .notFound
  | some people => .ok ⟨(insightsOf people).length, insightsOf people⟩

/-! ### GET /active-users-per-day -/

/-- The `login_count_by_day` dict: the nested loop over every person's logs,
incrementing the day's counter for each entry whose `acao` is `"login"`. -/
def loginCountByDay (people : List Person) : List (Date × Nat) :=
  people.foldl
    (fun acc u =>
      u.logs.foldl
        (fun a lg =>
          if lg.acao = "login" then ddUpdate 0 (fun n => n + 1) a lg.data else a)
        acc)
    []

/-- One element of the `active_users_per_day` response list:
`{"data": date, "logins": count}`. -/
structure DayCount where
  data : Date
  logins : Nat
deriving DecidableEq, Repr

/-- The response list for a given optional `min`: keep the days whose count
reaches `min` when it is present. -/
def activeDays (people : List Person) (minQ : Option Int) : List DayCount :=
  let counts := loginCountByDay people
  let counts :=
    match minQ with
    | some m => counts.filter (fun (e : Date × Nat) => decide (m ≤ (e.2 : Int)))
    | none => counts
  counts.map (fun (e : Date × Nat) => ⟨e.1, e.2⟩)

/-- `GET /active-users-per-day`: FastAPI first checks `min` against `ge=0`
(422 on a negative value, before the handler body runs), then the handler
raises 404 when the cache has no snapshot, and otherwise filters the per-day
login counts. -/
def getActiveUsersPerDay (minQ : Option Int) (st : State) :
    Except ApiError (AggResult DayCount) :=
  if minQ.getD 0 < 0 then .error .validationFailed
  else
    match st with
    | none => .error .notFound
    | some people => .ok ⟨(activeDays people minQ).length, activeDays people minQ⟩

/-! ### GET /evaluation -/

/-- HTTP status of a handler result as `TestClient` reports it: 200 on
success, the error's code otherwise. -/
def statusOf {α : Type} : Except ApiError α → Nat
  | .ok _ => 200
  | .error e => e.statusCode

/-- The fixed endpoint list the self-check walks. -/
def evalEndpoints : List String :=
  ["/users", "/top-countries", "/team-insights", "/active-users-per-day"]

/-- Status code observed by `test_endpoint` for each path (the self-check
sends no `min` parameter). -/
def endpointStatus (st : State) : String → Nat
  | "/users" => statusOf (getUsers st)
  | "/top-countries" => statusOf (getTopCountries st)
  | "/team-insights" => statusOf (getTeamInsights st)
  | "/active-users-per-day" => statusOf (getActiveUsersPerDay none st)
  | _ => 404

/-- The `codeStatus` accumulation of `evaluation`: start at 200 and
overwrite with each endpoint's status that differs from 200. -/
def evaluationStatus (st : State) : Nat :=
  (evalEndpoints.map (endpointStatus st)).foldl
    (fun acc s => if s ≠ 200 then s else acc) 200

/-- The spec's aggregation rule, stated from its words: 200 when every
endpoint succeeded, otherwise the status of the first endpoint that did not. -/
def firstNonSuccessStatus (statuses : List Nat) : Nat :=
  match statuses.find? (fun s => s ≠ 200) with
  | some s => s
  | none => 200

/-- The generic shape shared by the three `defaultdict` aggregation loops:
fold a stream of items into an insertion-ordered association list, updating
the entry at `key i` with `step i`. -/
def ddFold {ι κ ν : Type} [DecidableEq κ] (key : ι → κ) (step : ι → ν → ν)
    (dflt : ν) (l : List ι) : List (κ × ν) :=
  l.foldl (fun a i => ddUpdate dflt (step i) a (key i)) []

/-- First-encounter ordering of a key stream: the key sequence an
insertion-ordered Python dict reaches after inserting the stream. -/
def firstKeys {κ : Type} [DecidableEq κ] (ks : List κ) : List κ :=
  ks.foldl (fun a k => if k ∈ a then a else a ++ [k]) []

/-! ### Lemmas about the association-list dict -/

theorem dlookup_ddUpdate_self {κ ν : Type} [DecidableEq κ] (dflt : ν) (f : ν → ν)
    (acc : List (κ × ν)) (k : κ) :
    dlookup k (ddUpdate dflt f acc k) = some (f ((dlookup k acc).getD dflt)) := by
  induction acc with
  | nil => simp [ddUpdate, dlookup]
  | cons e rest ih =>
    by_cases h : e.1 = k
    · simp [ddUpdate, dlookup, h]
    · simp [ddUpdate, dlookup, h, ih]

theorem dlookup_ddUpdate_ne {κ ν : Type} [DecidableEq κ] (dflt : ν) (f : ν → ν)
    (acc : List (κ × ν)) {k q : κ} (h : q ≠ k) :
    dlookup q (ddUpdate dflt f acc k) = dlookup q acc := by
  have hkq : ¬ k = q := fun hh => h hh.symm
  induction acc with
  | nil => simp [ddUpdate, dlookup, hkq]
  | cons e rest ih =>
    by_cases he : e.1 = k
    · simp [ddUpdate, dlookup, he, hkq]
    · by_cases heq : e.1 = q
      · simp [ddUpdate, dlookup, he, heq, h]
      · simp [ddUpdate, dlookup, he, heq, ih]

theorem dlookup_foldl_ddUpdate {ι κ ν : Type} [DecidableEq κ]
    (key : ι → κ) (step : ι → ν → ν) (dflt : ν) (k : κ) :
    ∀ (l : List ι) (acc : List (κ × ν)),
    dlookup k (l.foldl (fun a i => ddUpdate dflt (step i) a (key i)) acc) =
      if ((dlookup k acc).isSome || l.any (fun i => decide (key i = k))) then
        some ((l.filter (fun i => decide (key i = k))).foldl
          (fun v i => step i v) ((dlookup k acc).getD dflt))
      else none := by
  intro l
  induction l with
  | nil =>
    intro acc
    cases h : dlookup k acc <;> simp [h]
  | cons i l ih =>
    intro acc
    rw [List.foldl_cons, ih]
    by_cases hk : key i = k
    · simp [hk, dlookup_ddUpdate_self, List.filter_cons]
    · have hne : k ≠ key i := fun hh => hk hh.symm
      simp [hk, dlookup_ddUpdate_ne dflt (step i) acc hne, List.filter_cons]

theorem keys_ddUpdate {κ ν : Type} [DecidableEq κ] (dflt : ν) (f : ν → ν)
    (acc : List (κ × ν)) (k : κ) :
    (ddUpdate dflt f acc k).map Prod.fst =
      if k ∈ acc.map Prod.fst then acc.map Prod.fst
      else acc.map Prod.fst ++ [k] := by
  induction acc with
  | nil => simp [ddUpdate]
  | cons e rest ih =>
    by_cases h : e.1 = k
    · simp [ddUpdate, h]
    · have hke : ¬ k = e.1 := fun hh => h hh.symm
      by_cases hm : k ∈ rest.map Prod.fst
      · simp [ddUpdate, h, ih, hke, hm]
      · simp [ddUpdate, h, ih, hke, hm]

theorem nodup_keys_ddUpdate {κ ν : Type} [DecidableEq κ] (dflt : ν) (f : ν → ν)
    (acc : List (κ × ν)) (k : κ) (h : (acc.map Prod.fst).Nodup) :
    ((ddUpdate dflt f acc k).map Prod.fst).Nodup := by
  rw [keys_ddUpdate]
  by_cases hm : k ∈ acc.map Prod.fst
  · simpa [hm]
  · simp [hm, List.nodup_append, h]

theorem nodup_keys_foldl_ddUpdate {ι κ ν : Type} [DecidableEq κ]
    (key : ι → κ) (step : ι → ν → ν) (dflt : ν) :
    ∀ (l : List ι) (acc : List (κ × ν)), (acc.map Prod.fst).Nodup →
    ((l.foldl (fun a i => ddUpdate dflt (step i) a (key i)) acc).map Prod.fst).Nodup := by
  intro l
  induction l with
  | nil => intro acc h; simpa using h
  | cons i l ih =>
    intro acc h
    rw [List.foldl_cons]
    exact ih _ (nodup_keys_ddUpdate dflt (step i) acc (key i) h)

theorem mem_iff_dlookup {κ ν : Type} [DecidableEq κ] {acc : List (κ × ν)}
    (h : (acc.map Prod.fst).Nodup) (k : κ) (v : ν) :
    (k, v) ∈ acc ↔ dlookup k acc = some v := by
  induction acc with
  | nil => simp [dlookup]
  | cons e rest ih =>
    obtain ⟨a, b⟩ := e
    simp only [List.map_cons, List.nodup_cons] at h
    by_cases ha : a = k
    · subst ha
      simp only [dlookup, if_pos rfl, List.mem_cons]
      constructor
      · rintro (hh | hh)
        · rw [Prod.ext_iff] at hh
          simpa using hh.2.symm
        · exact absurd (List.mem_map_of_mem Prod.fst hh) h.1
      · rintro hh
        simp only [if_pos trivial] at hh
        have hb : b = v := by simpa using hh
        exact Or.inl (by simp [hb])
    · simp only [dlookup, if_neg ha, List.mem_cons]
      rw [← ih h.2]
      constructor
      · rintro (hh | hh)
        · exact absurd (congrArg Prod.fst hh).symm ha
        · exact hh
      · intro hh; exact Or.inr hh

theorem keys_foldl_ddUpdate {ι κ ν : Type} [DecidableEq κ]
    (key : ι → κ) (step : ι → ν → ν) (dflt : ν) :
    ∀ (l : List ι) (acc : List (κ × ν)),
    ((l.foldl (fun a i => ddUpdate dflt (step i) a (key i)) acc).map Prod.fst) =
      (l.map key).foldl (fun a k => if k ∈ a then a else a ++ [k])
        (acc.map Prod.fst) := by
  intro l
  induction l with
  | nil => intro acc; simp
  | cons i l ih =>
    intro acc
    rw [List.foldl_cons, ih, List.map_cons, List.foldl_cons, keys_ddUpdate]

theorem dlookup_ddFold {ι κ ν : Type} [DecidableEq κ]
    (key : ι → κ) (step : ι → ν → ν) (dflt : ν) (k : κ) (l : List ι) :
    dlookup k (ddFold key step dflt l) =
      if l.any (fun i => decide (key i = k)) then
        some ((l.filter (fun i => decide (key i = k))).foldl
          (fun v i => step i v) dflt)
      else none := by
  have h := dlookup_foldl_ddUpdate key step dflt k l []
  simpa [ddFold, dlookup] using h

theorem nodup_keys_ddFold {ι κ ν : Type} [DecidableEq κ]
    (key : ι → κ) (step : ι → ν → ν) (dflt : ν) (l : List ι) :
    ((ddFold key step dflt l).map Prod.fst).Nodup := by
  exact nodup_keys_foldl_ddUpdate key step dflt l [] (by simp)

theorem keys_ddFold {ι κ ν : Type} [DecidableEq κ]
    (key : ι → κ) (step : ι → ν → ν) (dflt : ν) (l : List ι) :
    (ddFold key step dflt l).map Prod.fst = firstKeys (l.map key) := by
  have h := keys_foldl_ddUpdate key step dflt l []
  simpa [ddFold, firstKeys] using h

theorem mem_ddFold_iff {ι κ ν : Type} [DecidableEq κ]
    (key : ι → κ) (step : ι → ν → ν) (dflt : ν) (l : List ι) (k : κ) (v : ν) :
    (k, v) ∈ ddFold key step dflt l ↔
      (l.any (fun i => decide (key i = k)) = true ∧
        v = (l.filter (fun i => decide (key i = k))).foldl
          (fun v i => step i v) dflt) := by
  rw [mem_iff_dlookup (nodup_keys_ddFold key step dflt l), dlookup_ddFold]
  by_cases h : l.any (fun i => decide (key i = k)) = true
  · rw [if_pos h]
    simp only [Option.some.injEq]
    constructor
    · intro hv; exact ⟨h, hv.symm⟩
    · rintro ⟨_, hv⟩; exact hv.symm
  · rw [if_neg h]
    simp [h]

/-- A pure counting fold only measures length. -/
theorem foldl_count_length {α : Type} :
    ∀ (l : List α) (n : Nat), l.foldl (fun v (_ : α) => v + 1) n = n + l.length := by
  intro l
  induction l with
  | nil => simp
  | cons x l ih => intro n; simp [ih, Nat.add_comm, Nat.add_assoc, Nat.add_left_comm]

/-- `tally` is the counting instance of the dict fold. -/
theorem tally_eq_ddFold (xs : List String) :
    tally xs = ddFold (fun c => c) (fun _ n => n + 1) 0 xs := rfl

/-- Value stored by `tally`: the number of occurrences of the key. -/
theorem mem_tally_iff (xs : List String) (c : String) (n : Nat) :
    (c, n) ∈ tally xs ↔ (c ∈ xs ∧ n = xs.countP (fun x => decide (x = c))) := by
  rw [tally_eq_ddFold, mem_ddFold_iff]
  rw [List.countP_eq_length_filter]
  constructor
  · rintro ⟨h1, h2⟩
    refine ⟨by simpa using h1, ?_⟩
    rw [h2, foldl_count_length]
    omega
  · rintro ⟨h1, h2⟩
    refine ⟨by simpa using h1, ?_⟩
    rw [h2, foldl_count_length]
    omega

/-- Sum of the counts in an association list. -/
def sumSnd {κ : Type} (l : List (κ × Nat)) : Nat := (l.map Prod.snd).sum

theorem sumSnd_ddUpdate_inc {κ : Type} [DecidableEq κ]
    (acc : List (κ × Nat)) (k : κ) :
    sumSnd (ddUpdate 0 (fun n => n + 1) acc k) = sumSnd acc + 1 := by
  induction acc with
  | nil => simp [ddUpdate, sumSnd]
  | cons e rest ih =>
    by_cases h : e.1 = k
    · simp [ddUpdate, sumSnd, h, Nat.add_comm, Nat.add_assoc, Nat.add_left_comm]
    · simp only [ddUpdate, if_neg h, sumSnd, List.map_cons, List.sum_cons]
      have := ih
      simp only [sumSnd] at this
      omega

/-- The counts collected by `tally` add up to the length of the stream. -/
theorem sumSnd_tally (xs : List String) : sumSnd (tally xs) = xs.length := by
  suffices h : ∀ (ys : List String) (acc : List (String × Nat)),
      sumSnd (ys.foldl (fun a c => ddUpdate 0 (fun n => n + 1) a c) acc) =
        sumSnd acc + ys.length by
    simpa [tally, sumSnd] using h xs []
  intro ys
  induction ys with
  | nil => simp
  | cons y ys ih =>
    intro acc
    rw [List.foldl_cons, ih, sumSnd_ddUpdate_inc, List.length_cons]
    omega

/-- Sums of naturals only shrink along sublists. -/
theorem sum_le_of_sublist : ∀ {l₁ l₂ : List Nat}, l₁.Sublist l₂ → l₁.sum ≤ l₂.sum := by
  intro l₁ l₂ h
  induction h with
  | slnil => simp
  | cons x _ ih => simp; omega
  | cons₂ x _ ih => simp; omega

/-- `teamData` is the team-insights instance of the dict fold. -/
theorem teamData_eq_ddFold (people : List Person) :
    teamData people =
      ddFold (fun p => p.equipe.nome) TeamInfo.add TeamInfo.zero people := rfl

/-- Every log entry of every cached record, in scan order. -/
def allLogs (people : List Person) : List LogEntry :=
  (people.map (fun p => p.logs)).flatten

/-- The log entries whose action is `"login"`, in scan order. -/
def loginLogs (people : List Person) : List LogEntry :=
  (allLogs people).filter (fun lg => decide (lg.acao = "login"))

/-- Number of `"login"` entries dated `d` across the whole snapshot. -/
def loginCount (people : List Person) (d : Date) : Nat :=
  (allLogs people).countP
    (fun lg => decide (lg.acao = "login") && decide (lg.data = d))

/-- The nested counting loop of `GET /active-users-per-day` is the dict fold
over the filtered log stream. -/
theorem loginCountByDay_eq_ddFold (people : List Person) :
    loginCountByDay people =
      ddFold (fun lg => lg.data) (fun _ n => n + 1) 0 (loginLogs people) := by
  have inner : ∀ (logs : List LogEntry) (acc : List (Date × Nat)),
      logs.foldl
        (fun a lg =>
          if lg.acao = "login" then ddUpdate 0 (fun n => n + 1) a lg.data else a)
        acc =
      (logs.filter (fun lg => decide (lg.acao = "login"))).foldl
        (fun a lg => ddUpdate 0 (fun n => n + 1) a lg.data) acc := by
    intro logs
    induction logs with
    | nil => intro acc; simp
    | cons lg logs ih =>
      intro acc
      by_cases h : lg.acao = "login"
      · simp [List.filter_cons, h, ih]
      · simp [List.filter_cons, h, ih]
  suffices h : ∀ (ps : List Person) (acc : List (Date × Nat)),
      ps.foldl
        (fun acc u =>
          u.logs.foldl
            (fun a lg =>
              if lg.acao = "login" then ddUpdate 0 (fun n => n + 1) a lg.data
              else a)
            acc)
        acc =
      (((ps.map (fun p => p.logs)).flatten.filter
          (fun lg => decide (lg.acao = "login"))).foldl
        (fun a lg => ddUpdate 0 (fun n => n + 1) a lg.data) acc) by
    simpa [loginCountByDay, ddFold, loginLogs, allLogs] using h people []
  intro ps
  induction ps with
  | nil => intro acc; simp
  | cons p ps ih =>
    intro acc
    simp only [List.foldl_cons, List.map_cons, List.flatten_cons,
      List.filter_append, List.foldl_append]
    rw [ih, inner]

/-- The first-encounter order of login dates, as the insertion order of the
`login_count_by_day` dict keys. -/
def firstDates (people : List Person) : List Date :=
  firstKeys ((loginLogs people).map (fun lg => lg.data))

theorem length_filter_loginLogs (people : List Person) (d : Date) :
    ((loginLogs people).filter (fun lg => decide (lg.data = d))).length =
      loginCount people d := by
  rw [← List.countP_eq_length_filter, loginLogs, List.countP_filter, loginCount]
  exact List.countP_congr (fun lg _ => by simp [Bool.and_comm])

theorem one_le_loginCount_iff (people : List Person) (d : Date) :
    1 ≤ loginCount people d ↔
      (loginLogs people).any (fun lg => decide (lg.data = d)) = true := by
  rw [loginCount, List.any_eq_true]
  rw [show (1 : Nat) ≤ _ ↔ 0 < _ from Iff.rfl, List.countP_pos_iff]
  constructor
  · rintro ⟨lg, hmem, hp⟩
    simp only [Bool.and_eq_true, decide_eq_true_eq] at hp
    exact ⟨lg, List.mem_filter.mpr ⟨hmem, by simp [hp.1]⟩, by simp [hp.2]⟩
  · rintro ⟨lg, hmem, hp⟩
    have h2 := List.mem_filter.mp hmem
    simp only [decide_eq_true_eq] at hp
    refine ⟨lg, h2.1, ?_⟩
    have := h2.2
    simp only [decide_eq_true_eq] at this
    simp [this, hp]

/-- The entries of the `login_count_by_day` dict are exactly the dates with
at least one login, each mapped to its login count. -/
theorem mem_loginCountByDay_iff (people : List Person) (d : Date) (n : Nat) :
    (d, n) ∈ loginCountByDay people ↔
      (1 ≤ loginCount people d ∧ n = loginCount people d) := by
  rw [loginCountByDay_eq_ddFold, mem_ddFold_iff]
  constructor
  · rintro ⟨hany, hv⟩
    refine ⟨(one_le_loginCount_iff people d).mpr hany, ?_⟩
    rw [hv, foldl_count_length, ← length_filter_loginLogs people d]
    omega
  · rintro ⟨h1, hv⟩
    refine ⟨(one_le_loginCount_iff people d).mp h1, ?_⟩
    rw [hv, foldl_count_length, ← length_filter_loginLogs people d]
    omega

/-- Dict keys of the per-day counts, in first-encounter order. -/
theorem keys_loginCountByDay (people : List Person) :
    (loginCountByDay people).map Prod.fst = firstDates people := by
  rw [loginCountByDay_eq_ddFold, keys_ddFold, firstDates]

/-- Membership in the response list of `GET /active-users-per-day`:
a dict entry surviving the optional `min` filter. -/
theorem mem_activeDays_iff (people : List Person) (minQ : Option Int)
    (e : DayCount) :
    e ∈ activeDays people minQ ↔
      ((e.data, e.logins) ∈ loginCountByDay people ∧
        (minQ.getD 0 : Int) ≤ (e.logins : Int)) := by
  obtain ⟨d, n⟩ := e
  cases minQ with
  | none =>
    simp only [activeDays, List.mem_map, Option.getD_none]
    constructor
    · rintro ⟨a, ha, heq⟩
      obtain ⟨a1, a2⟩ := a
      simp only [DayCount.mk.injEq] at heq
      refine ⟨?_, by positivity⟩
      simpa [← heq.1, ← heq.2] using ha
    · rintro ⟨hmem, _⟩
      exact ⟨(d, n), hmem, rfl⟩
  | some m =>
    simp only [activeDays, List.mem_map, List.mem_filter, Option.getD_some]
    constructor
    · rintro ⟨a, ⟨ha, hp⟩, heq⟩
      obtain ⟨a1, a2⟩ := a
      simp only [DayCount.mk.injEq] at heq
      simp only [decide_eq_true_eq] at hp
      refine ⟨by simpa [← heq.1, ← heq.2] using ha, by simpa [← heq.2] using hp⟩
    · rintro ⟨hmem, hle⟩
      exact ⟨(d, n), ⟨hmem, by simpa using hle⟩, rfl⟩

/-! ### Sample data for concrete witnesses -/

/-- A concrete superuser record. -/
def samplePerson : Person :=
  ⟨"550e8400-e29b-41d4-a716-446655440000", "Ana", 30, 950, true, "BR",
    ⟨"alpha", true, [⟨"p1", true⟩, ⟨"p2", false⟩]⟩,
    [⟨⟨2024, 1, 1⟩, "login"⟩, ⟨⟨2024, 1, 1⟩, "logout"⟩, ⟨⟨2024, 1, 2⟩, "login"⟩]⟩

/-- A concrete raw record that validates. -/
def sampleRawGood : RawPerson :=
  ⟨"550e8400-e29b-41d4-a716-446655440000", "Ana", 30, 950, true, "BR",
    ⟨"alpha", true, [⟨"p1", true⟩, ⟨"p2", false⟩]⟩,
    [⟨"2024-01-01", "login"⟩]⟩

/-- A concrete raw record whose `id` is not a version-4 UUID. -/
def sampleRawBad : RawPerson :=
  ⟨"not-a-uuid", "Bob", 25, 100, false, "US", ⟨"beta", false, []⟩, []⟩

/-! ### Claim theorems -/

/-- C1: For every run of the self-check (GET /evaluation) over the fixed
endpoint list [/users, /top-countries, /team-insights,
/active-users-per-day], the reported overall status is the success code
(200) if every endpoint returned success, and otherwise the status code of
the first endpoint in the list that did not return success. -/
theorem c1_evaluation_overall_status (st : State) :
    evaluationStatus st =
      firstNonSuccessStatus (evalEndpoints.map (endpointStatus st)) := by
  cases st <;> rfl

/-- C2: A negative `min` on GET /active-users-per-day is rejected by the
parameter validation (FastAPI's 422 request-validation response) before any
aggregation, whatever the cache state; a non-negative `min` is never
rejected by the parameter validation. -/
theorem c2_min_parameter_validation (st : State) (m : Int) :
    (m < 0 →
      getActiveUsersPerDay (some m) st = .error .validationFailed) ∧
    (0 ≤ m →
      getActiveUsersPerDay (some m) st ≠ .error .validationFailed) := by
  constructor
  · intro h
    simp [getActiveUsersPerDay, h]
  · intro h
    have hnot : ¬ (Option.getD (some m) 0 < 0) := by simpa using not_lt.mpr h
    simp only [getActiveUsersPerDay, if_neg hnot]
    cases st with
    | none => simp
    | some people => simp

/-- Witness for C2 at `min = -1` and `min = 0` on the empty cache. -/
theorem c2_min_parameter_validation_witness :
    getActiveUsersPerDay (some (-1)) none = .error .validationFailed ∧
    getActiveUsersPerDay (some 0) none ≠ .error .validationFailed :=
  ⟨(c2_min_parameter_validation none (-1)).1 (by norm_num),
   (c2_min_parameter_validation none 0).2 le_rfl⟩

/-- C9: When no ingestion has ever occurred (no snapshot exists), every
query endpoint fails with the 404 not-found error and computes no
aggregate. -/
theorem c9_empty_store_not_found (m : Option Int) (hm : 0 ≤ m.getD 0) :
    getUsers none = .error .notFound ∧
    getTopCountries none = .error .notFound ∧
    getTeamInsights none = .error .notFound ∧
    getActiveUsersPerDay m none = .error .notFound := by
  refine ⟨rfl, rfl, rfl, ?_⟩
  simp only [getActiveUsersPerDay, if_neg (not_lt.mpr hm)]

/-- Witness for C9 with `min` absent. -/
theorem c9_empty_store_not_found_witness :
    getUsers none = .error .notFound ∧
    getTopCountries none = .error .notFound ∧
    getTeamInsights none = .error .notFound ∧
    getActiveUsersPerDay none none = .error .notFound :=
  c9_empty_store_not_found none (by simp)

/-- C10: After POST /users with an empty list, a snapshot exists and is
empty, and every query endpoint succeeds with total 0 and empty data. -/
theorem c10_empty_ingest_then_success (st0 : State) :
    (postUsers [] st0).2 = some [] ∧
    getUsers (postUsers [] st0).2 = .ok ⟨0, []⟩ ∧
    getTopCountries (postUsers [] st0).2 = .ok ⟨0, []⟩ ∧
    getTeamInsights (postUsers [] st0).2 = .ok ⟨0, []⟩ ∧
    getActiveUsersPerDay none (postUsers [] st0).2 = .ok ⟨0, []⟩ := by
  have hpost : (postUsers [] st0).2 = some [] := rfl
  refine ⟨hpost, ?_, ?_, ?_, ?_⟩ <;> rw [hpost]
  · rfl
  · simp [getTopCountries, top5Paises, superusuariosPais, tally]
  · rfl
  · rfl

/-- C4: GET /users on a non-empty snapshot returns exactly the records with
score at least 900 and active true, in snapshot order, omitting no
qualifying record and including no other, with total equal to the data
length. -/
theorem c4_superusers (people : List Person) (hne : people ≠ []) :
    ∃ r, getUsers (some people) = .ok r ∧
      r.data = people.filter (fun p => decide (900 ≤ p.score) && p.ativo) ∧
      r.data.Sublist people ∧
      (∀ p ∈ r.data, 900 ≤ p.score ∧ p.ativo = true) ∧
      (∀ p ∈ people, 900 ≤ p.score → p.ativo = true → p ∈ r.data) ∧
      r.total = r.data.length := by
  refine ⟨⟨(superusersOf people).length, superusersOf people⟩, rfl, rfl,
    List.filter_sublist people, ?_, ?_, rfl⟩
  · intro p hp
    have h := List.mem_filter.mp hp
    have h2 := h.2
    simp only [Bool.and_eq_true, decide_eq_true_eq] at h2
    exact h2
  · intro p hp h1 h2
    exact List.mem_filter.mpr ⟨hp, by simp [h1, h2]⟩

/-- Witness for C4 on a one-record snapshot. -/
theorem c4_superusers_witness :
    ∃ r, getUsers (some [samplePerson]) = .ok r ∧
      r.data = [samplePerson].filter (fun p => decide (900 ≤ p.score) && p.ativo) ∧
      r.data.Sublist [samplePerson] ∧
      (∀ p ∈ r.data, 900 ≤ p.score ∧ p.ativo = true) ∧
      (∀ p ∈ [samplePerson], 900 ≤ p.score → p.ativo = true → p ∈ r.data) ∧
      r.total = r.data.length :=
  c4_superusers [samplePerson] (List.cons_ne_nil _ _)

/-- C7: GET /active-users-per-day on a non-empty snapshot counts, per
calendar date, the log entries across all records whose action is "login";
with `min` present exactly the counted days reaching `min` are returned;
output order follows first-encountered date; the reported total equals the
number of returned days. -/
theorem c7_active_users_per_day (people : List Person) (hne : people ≠ [])
    (minQ : Option Int) (hm : 0 ≤ minQ.getD 0) :
    ∃ r, getActiveUsersPerDay minQ (some people) = .ok r ∧
      r.total = r.data.length ∧
      (∀ e ∈ r.data, e.logins = loginCount people e.data ∧ 1 ≤ e.logins) ∧
      (∀ d : Date,
        (∃ e ∈ r.data, e.data = d ∧ e.logins = loginCount people d) ↔
          (1 ≤ loginCount people d ∧
            minQ.getD 0 ≤ (loginCount people d : Int))) ∧
      (r.data.map (fun e => e.data)).Sublist (firstDates people) := by
  have hok : getActiveUsersPerDay minQ (some people) =
      .ok ⟨(activeDays people minQ).length, activeDays people minQ⟩ := by
    simp only [getActiveUsersPerDay]
    rw [if_neg (not_lt.mpr hm)]
  refine ⟨_, hok, rfl, ?_, ?_, ?_⟩
  · intro e he
    obtain ⟨hmem, _⟩ := (mem_activeDays_iff people minQ e).mp he
    obtain ⟨h1, h2⟩ := (mem_loginCountByDay_iff people e.data e.logins).mp hmem
    exact ⟨h2, by omega⟩
  · intro d
    constructor
    · rintro ⟨e, he, hd, hn⟩
      obtain ⟨hmem, hle⟩ := (mem_activeDays_iff people minQ e).mp he
      obtain ⟨h1, _⟩ := (mem_loginCountByDay_iff people e.data e.logins).mp hmem
      subst hd
      exact ⟨h1, by rw [← hn]; exact_mod_cast hle⟩
    · rintro ⟨h1, hle⟩
      refine ⟨⟨d, loginCount people d⟩, ?_, rfl, rfl⟩
      refine (mem_activeDays_iff people minQ ⟨d, loginCount people d⟩).mpr ⟨?_, ?_⟩
      · exact (mem_loginCountByDay_iff people d (loginCount people d)).mpr ⟨h1, rfl⟩
      · exact_mod_cast hle
  · have hsub : ∀ counts2 : List (Date × Nat),
        counts2.Sublist (loginCountByDay people) →
        ((counts2.map (fun e => (⟨e.1, e.2⟩ : DayCount))).map
          (fun e => e.data)).Sublist (firstDates people) := by
      intro counts2 hs
      rw [← keys_loginCountByDay, List.map_map]
      exact (hs.map Prod.fst)
    cases minQ with
    | none => exact hsub _ (List.Sublist.refl _)
    | some m => exact hsub _ (List.filter_sublist _)

/-- Witness for C7 on a one-record snapshot with `min = 1`. -/
theorem c7_active_users_per_day_witness :
    ∃ r, getActiveUsersPerDay (some 1) (some [samplePerson]) = .ok r ∧
      r.total = r.data.length ∧
      (∀ e ∈ r.data, e.logins = loginCount [samplePerson] e.data ∧ 1 ≤ e.logins) ∧
      (∀ d : Date,
        (∃ e ∈ r.data, e.data = d ∧ e.logins = loginCount [samplePerson] d) ↔
          (1 ≤ loginCount [samplePerson] d ∧
            (some (1 : Int)).getD 0 ≤ (loginCount [samplePerson] d : Int))) ∧
      (r.data.map (fun e => e.data)).Sublist (firstDates [samplePerson]) :=
  c7_active_users_per_day [samplePerson] (List.cons_ne_nil _ _) (some 1)
    (by norm_num)

/-- C8: the `min` filter of GET /active-users-per-day is monotonic (a larger
`min` never returns more days), and with `min` omitted the returned days are
exactly those with at least one login. -/
theorem c8_min_filter_monotonic (people : List Person) (m1 m2 : Int)
    (h0 : 0 ≤ m1) (h12 : m1 ≤ m2) :
    ∃ r1 r2 r0,
      getActiveUsersPerDay (some m1) (some people) = .ok r1 ∧
      getActiveUsersPerDay (some m2) (some people) = .ok r2 ∧
      getActiveUsersPerDay none (some people) = .ok r0 ∧
      r2.data.length ≤ r1.data.length ∧
      (∀ d : Date, (∃ e ∈ r0.data, e.data = d) ↔ 1 ≤ loginCount people d) := by
  have h02 : (0 : Int) ≤ m2 := le_trans h0 h12
  have e1 : getActiveUsersPerDay (some m1) (some people) =
      .ok ⟨(activeDays people (some m1)).length, activeDays people (some m1)⟩ := by
    simp only [getActiveUsersPerDay]
    rw [if_neg (by simpa using not_lt.mpr h0)]
  have e2 : getActiveUsersPerDay (some m2) (some people) =
      .ok ⟨(activeDays people (some m2)).length, activeDays people (some m2)⟩ := by
    simp only [getActiveUsersPerDay]
    rw [if_neg (by simpa using not_lt.mpr h02)]
  have e0 : getActiveUsersPerDay none (some people) =
      .ok ⟨(activeDays people none).length, activeDays people none⟩ := rfl
  refine ⟨_, _, _, e1, e2, e0, ?_, ?_⟩
  · simp only [activeDays, List.length_map]
    rw [← List.countP_eq_length_filter, ← List.countP_eq_length_filter]
    exact List.countP_mono_left
      (fun x _ hx => by
        simp only [decide_eq_true_eq] at hx ⊢
        omega)
  · intro d
    constructor
    · rintro ⟨e, he, hd⟩
      obtain ⟨hmem, _⟩ := (mem_activeDays_iff people none e).mp he
      obtain ⟨h1, _⟩ := (mem_loginCountByDay_iff people e.data e.logins).mp hmem
      exact hd ▸ h1
    · intro h1
      refine ⟨⟨d, loginCount people d⟩, ?_, rfl⟩
      refine (mem_activeDays_iff people none ⟨d, loginCount people d⟩).mpr ⟨?_, ?_⟩
      · exact (mem_loginCountByDay_iff people d (loginCount people d)).mpr ⟨h1, rfl⟩
      · simp

/-- Witness for C8 at `m1 = 1`, `m2 = 2` on a one-record snapshot. -/
theorem c8_min_filter_monotonic_witness :
    ∃ r1 r2 r0,
      getActiveUsersPerDay (some 1) (some [samplePerson]) = .ok r1 ∧
      getActiveUsersPerDay (some 2) (some [samplePerson]) = .ok r2 ∧
      getActiveUsersPerDay none (some [samplePerson]) = .ok r0 ∧
      r2.data.length ≤ r1.data.length ∧
      (∀ d : Date, (∃ e ∈ r0.data, e.data = d) ↔ 1 ≤ loginCount [samplePerson] d) :=
  c8_min_filter_monotonic [samplePerson] 1 2 (by norm_num) (by norm_num)

/-- Transitivity of the descending-count comparison of `most_common`. -/
theorem countDesc_trans (a b c : String × Nat)
    (h1 : (fun x y => decide (y.2 ≤ x.2)) a b = true)
    (h2 : (fun x y => decide (y.2 ≤ x.2)) b c = true) :
    (fun x y => decide (y.2 ≤ x.2)) a c = true := by
  simp only [decide_eq_true_eq] at h1 h2 ⊢
  omega

/-- Totality of the descending-count comparison of `most_common`. -/
theorem countDesc_total (a b : String × Nat) :
    ((fun x y => decide (y.2 ≤ x.2)) a b ||
      (fun x y => decide (y.2 ≤ x.2)) b a) = true := by
  simp only [Bool.or_eq_true, decide_eq_true_eq]
  omega

/-- C5: GET /top-countries on a non-empty snapshot returns at most 5
(country, count) pairs; each count is the number of records of that country
with score above 800; the list is sorted by descending count with ties kept
in first-encounter (insertion) order of the counting dict; the counts sum to
at most the number of records with score above 800; the total equals the
data length. -/
theorem c5_top_countries (people : List Person) (hne : people ≠ []) :
    ∃ r, getTopCountries (some people) = .ok r ∧
      r.data.length ≤ 5 ∧
      r.data.Pairwise (fun a b => b.2 ≤ a.2) ∧
      (∀ e ∈ r.data,
        e.2 = people.countP
          (fun p => decide (800 < p.score) && decide (p.pais = e.1))) ∧
      sumSnd r.data ≤ people.countP (fun p => decide (800 < p.score)) ∧
      (∀ a b : String × Nat, a.2 = b.2 →
        [a, b].Sublist (tally (superusuariosPais people)) →
        [a, b].Sublist ((tally (superusuariosPais people)).mergeSort
          (fun x y => decide (y.2 ≤ x.2)))) ∧
      r.total = r.data.length := by
  have hsorted := List.sorted_mergeSort countDesc_trans countDesc_total
    (tally (superusuariosPais people))
  refine ⟨⟨(top5Paises people).length, top5Paises people⟩, rfl, ?_, ?_, ?_, ?_,
    ?_, rfl⟩
  · exact List.length_take_le 5 _
  · refine List.Pairwise.imp (fun h => of_decide_eq_true h) ?_
    exact List.Pairwise.sublist (List.take_sublist 5 _) hsorted
  · intro e he
    obtain ⟨c, n⟩ := e
    have h1 : (c, n) ∈ (tally (superusuariosPais people)).mergeSort
        (fun a b => decide (b.2 ≤ a.2)) :=
      List.Sublist.mem he (List.take_sublist 5 _)
    have hmem : (c, n) ∈ tally (superusuariosPais people) :=
      (List.mergeSort_perm _ _).mem_iff.mp h1
    obtain ⟨_, hn⟩ := (mem_tally_iff _ c n).mp hmem
    rw [hn, superusuariosPais, List.countP_map, List.countP_filter]
    exact List.countP_congr (fun p _ => by simp [Bool.and_comm])
  · show sumSnd (top5Paises people) ≤ people.countP (fun p => decide (800 < p.score))
    have h1 : sumSnd (top5Paises people) ≤
        sumSnd ((tally (superusuariosPais people)).mergeSort
          (fun a b => decide (b.2 ≤ a.2))) :=
      sum_le_of_sublist ((List.take_sublist 5 _).map Prod.snd)
    have h2 : sumSnd ((tally (superusuariosPais people)).mergeSort
        (fun a b => decide (b.2 ≤ a.2))) =
        sumSnd (tally (superusuariosPais people)) :=
      ((List.mergeSort_perm _ _).map Prod.snd).sum_eq
    have h3 := sumSnd_tally (superusuariosPais people)
    have h4 : (superusuariosPais people).length =
        people.countP (fun p => decide (800 < p.score)) := by
      rw [superusuariosPais, List.length_map, List.countP_eq_length_filter]
    omega
  · intro a b hab hsub
    refine List.sublist_mergeSort countDesc_trans countDesc_total ?_ hsub
    simp [List.pairwise_cons, hab]

/-- Witness for C5 on a one-record snapshot. -/
theorem c5_top_countries_witness :
    ∃ r, getTopCountries (some [samplePerson]) = .ok r ∧
      r.data.length ≤ 5 ∧
      r.data.Pairwise (fun a b => b.2 ≤ a.2) ∧
      (∀ e ∈ r.data,
        e.2 = [samplePerson].countP
          (fun p => decide (800 < p.score) && decide (p.pais = e.1))) ∧
      sumSnd r.data ≤ [samplePerson].countP (fun p => decide (800 < p.score)) ∧
      (∀ a b : String × Nat, a.2 = b.2 →
        [a, b].Sublist (tally (superusuariosPais [samplePerson])) →
        [a, b].Sublist ((tally (superusuariosPais [samplePerson])).mergeSort
          (fun x y => decide (y.2 ≤ x.2)))) ∧
      r.total = r.data.length :=
  c5_top_countries [samplePerson] (List.cons_ne_nil _ _)

/-- Rounding to the nearest integer is monotone on the rationals. -/
theorem round_mono_rat {x y : ℚ} (h : x ≤ y) : round x ≤ round y := by
  rw [round_eq, round_eq]
  exact Int.floor_le_floor (by linarith)

/-- Two-decimal rounding keeps nonnegative values nonnegative. -/
theorem round2_nonneg {q : ℚ} (h : 0 ≤ q) : 0 ≤ round2 q := by
  rw [round2]
  have h0 : round (0 : ℚ) ≤ round (q * 100) := round_mono_rat (by positivity)
  rw [round_zero] at h0
  have h1 : (0 : ℚ) ≤ ((round (q * 100) : ℤ) : ℚ) := by exact_mod_cast h0
  linarith

/-- Two-decimal rounding keeps values at most 100 at most 100. -/
theorem round2_le_100 {q : ℚ} (h : q ≤ 100) : round2 q ≤ 100 := by
  rw [round2]
  have h0 : round (q * 100) ≤ round (((10000 : ℤ) : ℚ)) :=
    round_mono_rat (by push_cast; linarith)
  rw [round_intCast] at h0
  have h1 : ((round (q * 100) : ℤ) : ℚ) ≤ 10000 := by exact_mod_cast h0
  linarith

/-- Two-decimal rounding fixes zero. -/
theorem round2_zero : round2 0 = 0 := by
  rw [round2]
  norm_num

/-- Unfolding the team-insights accumulation over a member list: the four
counters are the member count, the leader count, the completed-project sum
and the active count. -/
theorem teamFold_components :
    ∀ (l : List Person) (t0 : TeamInfo),
    l.foldl (fun v p => TeamInfo.add p v) t0 =
      ⟨t0.total_membros + l.length,
       t0.lideres + l.countP (fun p => p.equipe.lider),
       t0.projetos_concluidos +
         (l.map (fun p => p.equipe.projetos.countP (fun pr => pr.concluido))).sum,
       t0.ativos + l.countP (fun p => p.ativo)⟩ := by
  intro l
  induction l with
  | nil =>
    intro t0
    obtain ⟨a, b, c, d⟩ := t0
    simp
  | cons p l ih =>
    intro t0
    rw [List.foldl_cons, ih]
    obtain ⟨a, b, c, d⟩ := t0
    simp only [TeamInfo.add, List.length_cons, List.countP_cons, List.map_cons,
      List.sum_cons, TeamInfo.mk.injEq]
    refine ⟨by omega, ?_, by omega, ?_⟩ <;> split_ifs <;> omega

/-- C6: every group of GET /team-insights reports its member count, leader
count and completed-project total over the members with that team name, and
an active percentage that is (active/total)x100 rounded to two decimals,
always within [0, 100], and 0 whenever the member count is 0. -/
theorem c6_team_insights (people : List Person) (hne : people ≠ []) :
    ∃ r, getTeamInsights (some people) = .ok r ∧
      r.total = r.data.length ∧
      ∀ ins ∈ r.data,
        0 ≤ ins.percentagem_ativos ∧ ins.percentagem_ativos ≤ 100 ∧
        (ins.total_membros = 0 → ins.percentagem_ativos = 0) ∧
        ins.total_membros =
          people.countP (fun p => decide (p.equipe.nome = ins.team_name)) ∧
        ins.lideres =
          (people.filter (fun p => decide (p.equipe.nome = ins.team_name))).countP
            (fun p => p.equipe.lider) ∧
        ins.projetos_concluidos =
          ((people.filter (fun p => decide (p.equipe.nome = ins.team_name))).map
            (fun p => p.equipe.projetos.countP (fun pr => pr.concluido))).sum ∧
        ins.percentagem_ativos =
          round2
            ((((people.filter
                (fun p => decide (p.equipe.nome = ins.team_name))).countP
                  (fun p => p.ativo) : ℚ) /
              (ins.total_membros : ℚ)) * 100) := by
  refine ⟨⟨(insightsOf people).length, insightsOf people⟩, rfl, rfl, ?_⟩
  intro ins hins
  simp only [insightsOf] at hins
  obtain ⟨e, hmem, hmk⟩ := List.mem_map.mp hins
  obtain ⟨t, info⟩ := e
  rw [teamData_eq_ddFold] at hmem
  obtain ⟨hany, hval⟩ := (mem_ddFold_iff _ _ _ _ _ _).mp hmem
  rw [teamFold_components] at hval
  simp only [TeamInfo.zero, Nat.zero_add] at hval
  have hpos : 0 < (people.filter (fun p => decide (p.equipe.nome = t))).length := by
    obtain ⟨p, hp, hpred⟩ := List.any_eq_true.mp hany
    exact List.length_pos_of_mem (List.mem_filter.mpr ⟨hp, hpred⟩)
  have hts : ins.team_name = t := by rw [← hmk, mkInsight]
  subst hts
  rw [← hmk]
  simp only [mkInsight, hval]
  have hiftrue :
      (0 : Nat) < (people.filter
        (fun p => decide (p.equipe.nome = ins.team_name))).length := hpos
  rw [if_pos hiftrue]
  set g := people.filter (fun p => decide (p.equipe.nome = ins.team_name)) with hg
  have hact : g.countP (fun p => p.ativo) ≤ g.length := List.countP_le_length _
  have hq0 : (0 : ℚ) ≤ ((g.countP (fun p => p.ativo) : ℚ) / (g.length : ℚ)) * 100 := by
    positivity
  have hq100 : ((g.countP (fun p => p.ativo) : ℚ) / (g.length : ℚ)) * 100 ≤ 100 := by
    have hle1 : (g.countP (fun p => p.ativo) : ℚ) / (g.length : ℚ) ≤ 1 := by
      rw [div_le_one (by exact_mod_cast hpos)]
      exact_mod_cast hact
    linarith
  refine ⟨round2_nonneg hq0, round2_le_100 hq100, ?_, ?_, ?_, ?_, ?_⟩
  · intro h0
    exact absurd h0 (by omega)
  · rw [List.countP_eq_length_filter]
  · trivial
  · trivial
  · trivial

/-- Witness for C6 on a one-record snapshot. -/
theorem c6_team_insights_witness :
    ∃ r, getTeamInsights (some [samplePerson]) = .ok r ∧
      r.total = r.data.length ∧
      ∀ ins ∈ r.data,
        0 ≤ ins.percentagem_ativos ∧ ins.percentagem_ativos ≤ 100 ∧
        (ins.total_membros = 0 → ins.percentagem_ativos = 0) ∧
        ins.total_membros =
          [samplePerson].countP (fun p => decide (p.equipe.nome = ins.team_name)) ∧
        ins.lideres =
          ([samplePerson].filter
            (fun p => decide (p.equipe.nome = ins.team_name))).countP
              (fun p => p.equipe.lider) ∧
        ins.projetos_concluidos =
          (([samplePerson].filter
            (fun p => decide (p.equipe.nome = ins.team_name))).map
              (fun p => p.equipe.projetos.countP (fun pr => pr.concluido))).sum ∧
        ins.percentagem_ativos =
          round2
            (((([samplePerson].filter
                (fun p => decide (p.equipe.nome = ins.team_name))).countP
                  (fun p => p.ativo) : ℚ) /
              (ins.total_membros : ℚ)) * 100) :=
  c6_team_insights [samplePerson] (List.cons_ne_nil _ _)

/-- A single invalid record makes the whole-body validation fail. -/
theorem validateAll_eq_none {α β : Type} (f : α → Option β) :
    ∀ (l : List α), (∃ r ∈ l, f r = none) → validateAll f l = none := by
  intro l
  induction l with
  | nil => rintro ⟨r, hr, _⟩; cases hr
  | cons x xs ih =>
    rintro ⟨r, hr, hf⟩
    rcases List.mem_cons.mp hr with h | h
    · subst h; simp [validateAll, hf]
    · cases hx : f x
      · simp [validateAll, hx]
      · simp [validateAll, hx, ih ⟨r, h, hf⟩]

/-- When every record validates, the whole-body validation succeeds and
preserves the record count. -/
theorem validateAll_isSome {α β : Type} (f : α → Option β) :
    ∀ (l : List α), (∀ r ∈ l, (f r).isSome) →
      ∃ out, validateAll f l = some out ∧ out.length = l.length := by
  intro l
  induction l with
  | nil => intro _; exact ⟨[], rfl, rfl⟩
  | cons x xs ih =>
    intro h
    obtain ⟨b, hb⟩ := Option.isSome_iff_exists.mp (h x (List.mem_cons_self x xs))
    obtain ⟨out, hout, hlen⟩ := ih (fun r hr => h r (List.mem_cons_of_mem x hr))
    exact ⟨b :: out, by simp [validateAll, hb, hout], by simp [hlen]⟩

/-- C3: POST /users is all-or-nothing: any record failing schema validation
fails the whole call and leaves the prior snapshot untouched; if all records
validate, the snapshot is replaced wholesale by the parsed payload and the
response reports a stored count equal to the payload length. -/
theorem c3_ingest_atomicity (payload : List RawPerson) (st : State) :
    ((∃ r ∈ payload, validatePerson r = none) →
      postUsers payload st = (.error .validationFailed, st)) ∧
    ((∀ r ∈ payload, (validatePerson r).isSome) →
      ∃ people, validateAll validatePerson payload = some people ∧
        postUsers payload st =
          (.ok (toString people.length ++ " pessoas armazenadas em cache"),
            some people) ∧
        people.length = payload.length) := by
  constructor
  · intro h
    simp [postUsers, validateAll_eq_none validatePerson payload h]
  · intro h
    obtain ⟨people, hsome, hlen⟩ := validateAll_isSome validatePerson payload h
    exact ⟨people, hsome, by simp [postUsers, hsome], hlen⟩

/-- Witness for C3: a bad one-record payload is rejected wholesale on the
empty cache, and a good one-record payload is stored with count 1. -/
theorem c3_ingest_atomicity_witness :
    postUsers [sampleRawBad] none = (.error .validationFailed, none) ∧
    ∃ people, validateAll validatePerson [sampleRawGood] = some people ∧
      postUsers [sampleRawGood] none =
        (.ok (toString people.length ++ " pessoas armazenadas em cache"),
          some people) ∧
      people.length = [sampleRawGood].length :=
  ⟨(c3_ingest_atomicity [sampleRawBad] none).1
      ⟨sampleRawBad, List.mem_cons_self _ _, by decide⟩,
   (c3_ingest_atomicity [sampleRawGood] none).2
      (by
        intro r hr
        rcases List.mem_cons.mp hr with h | h
        · subst h; decide
        · cases h)⟩

end Desafio
